import Mathlib

/-!
Verification of the feeless wire layer: header and message codecs, the
stream reassembler from pcap.rs, the block model from blocks/mod.rs, and
the cookie store from sled_disk.rs. Bytes are modelled as natural numbers
and byte strings as lists of naturals. Rust computations that can panic
(todo, unimplemented) are embedded in the `ROut` outcome type, which
distinguishes an ordinary error result from a panic.
-/

/-- Decidable equality for Except results, used to evaluate the codecs at
concrete inputs. -/
instance {ε α : Type} [DecidableEq ε] [DecidableEq α] : DecidableEq (Except ε α) :=
  fun a b =>
    match a, b with
    | .ok x, .ok y =>
      if h : x = y then isTrue (by rw [h])
      else isFalse (by intro hc; cases hc; exact h rfl)
    | .ok _, .error _ => isFalse (by intro hc; cases hc)
    | .error _, .ok _ => isFalse (by intro hc; cases hc)
    | .error x, .error y =>
      if h : x = y then isTrue (by rw [h])
      else isFalse (by intro hc; cases hc; exact h rfl)

namespace Feeless

/-- Outcome of a Rust computation: a value, a recoverable error result
(anyhow Err), or a panic (todo and unimplemented invocations). -/
inductive ROut (α : Type) where
  | ok (val : α)
  | err (msg : String)
  | panic (msg : String)
  deriving DecidableEq, Repr

def ROut.isOk {α : Type} : ROut α → Bool
  | .ok _ => true
  | _ => false

def ROut.isErr {α : Type} : ROut α → Bool
  | .err _ => true
  | _ => false

def ROut.isPanic {α : Type} : ROut α → Bool
  | .panic _ => true
  | _ => false

/-- Modelled from the spec: network identifier enumeration (Test/Beta/Live),
each with a distinct magic byte. The header codec source file is absent
from the provided sources. -/
inductive Network where
  | Test
  | Beta
  | Live
  deriving DecidableEq, Repr

def Network.toByte : Network → Nat
  | .Test => 0x41
  | .Beta => 0x42
  | .Live => 0x43

def Network.fromByte (b : Nat) : Option Network :=
  if b = 0x41 then some .Test
  else if b = 0x42 then some .Beta
  else if b = 0x43 then some .Live
  else none

/-- Modelled from the spec: the message-type enumeration carried in the
header. Byte codes are a fixed injective assignment. -/
inductive MessageType where
  | Invalid
  | NotAType
  | Keepalive
  | Publish
  | ConfirmReq
  | ConfirmAck
  | BulkPull
  | BulkPush
  | FrontierReq
  | Handshake
  | BulkPullAccount
  | TelemetryReq
  | TelemetryAck
  deriving DecidableEq, Repr

def MessageType.toByte : MessageType → Nat
  | .Invalid => 0
  | .NotAType => 1
  | .Keepalive => 2
  | .Publish => 3
  | .ConfirmReq => 4
  | .ConfirmAck => 5
  | .BulkPull => 6
  | .BulkPush => 7
  | .FrontierReq => 8
  | .Handshake => 10
  | .BulkPullAccount => 11
  | .TelemetryReq => 12
  | .TelemetryAck => 13

def MessageType.fromByte (b : Nat) : Option MessageType :=
  if b = 0 then some .Invalid
  else if b = 1 then some .NotAType
  else if b = 2 then some .Keepalive
  else if b = 3 then some .Publish
  else if b = 4 then some .ConfirmReq
  else if b = 5 then some .ConfirmAck
  else if b = 6 then some .BulkPull
  else if b = 7 then some .BulkPush
  else if b = 8 then some .FrontierReq
  else if b = 10 then some .Handshake
  else if b = 11 then some .BulkPullAccount
  else if b = 12 then some .TelemetryReq
  else if b = 13 then some .TelemetryAck
  else none

/-- Modelled from the spec: fixed-length header record carrying network id,
three protocol-version bytes, the message type and a 2-byte extensions
bitfield. -/
structure Header where
  network : Network
  versionMax : Nat
  versionUsing : Nat
  versionMin : Nat
  messageType : MessageType
  extensions : Nat
  deriving DecidableEq, Repr

def Header.LEN : Nat := 8

def Header.serialize (h : Header) : List Nat :=
  [0x52, h.network.toByte, h.versionMax, h.versionUsing, h.versionMin,
   h.messageType.toByte, h.extensions % 256, h.extensions / 256]

def Header.deserialize (data : List Nat) : Except String Header :=
  match data with
  | [m, n, vmax, vuse, vmin, t, e1, e2] =>
    if m ≠ 0x52 then .error "MalformedHeader" else
    match Network.fromByte n, MessageType.fromByte t with
    | some nw, some mt => .ok ⟨nw, vmax, vuse, vmin, mt, e1 + 256 * e2⟩
    | _, _ => .error "MalformedHeader"
  | _ => .error "MalformedHeader"

/-- Modelled from the spec: the Bytes cursor used by the codecs (the bytes.rs
source file is absent). `slice` takes the next n bytes, failing with an
incomplete-data error when fewer remain. -/
structure Bytes where
  data : List Nat
  pos : Nat
  deriving DecidableEq, Repr

def Bytes.new (d : List Nat) : Bytes := ⟨d, 0⟩

def Bytes.remain (b : Bytes) : Nat := b.data.length - b.pos

def Bytes.eof (b : Bytes) : Bool := b.remain == 0

def Bytes.slice (b : Bytes) (n : Nat) : Except String (List Nat × Bytes) :=
  if b.pos + n ≤ b.data.length then
    .ok ((b.data.drop b.pos).take n, ⟨b.data, b.pos + n⟩)
  else
    .error "IncompleteData"

/-- Modelled from the spec: a fixed-length serialized network address used in
Keepalive gossip (the peer.rs source file is absent); the record is kept as
its raw bytes. -/
structure Peer where
  bytes : List Nat
  deriving DecidableEq, Repr

def Peer.LEN : Nat := 18

def Peer.deserialize (_ : Option Header) (data : List Nat) : Except String Peer :=
  if data.length = Peer.LEN then .ok ⟨data⟩ else .error "bad peer length"

/-- Keepalive message: a vector of peers, from keepalive.rs. -/
structure Keepalive where
  peers : List Peer
  deriving DecidableEq, Repr

def Keepalive.PEERS : Nat := 8

/-- Wire::len for Keepalive from keepalive.rs: Peer::LEN * Keepalive::PEERS,
ignoring the header. -/
def Keepalive.len (_ : Option Header) : Except String Nat :=
  .ok (Peer.LEN * Keepalive.PEERS)

/-- The for-loop body of Keepalive::deserialize from keepalive.rs: slice
Peer::LEN bytes, deserialize a peer, push it, n times. -/
def Keepalive.deserializeLoop : Nat → Bytes → List Peer → Except String (List Peer × Bytes)
  | 0, b, acc => .ok (acc, b)
  | n + 1, b, acc =>
    match b.slice Peer.LEN with
    | .error e => .error e
    | .ok (d, b2) =>
      match Peer.deserialize none d with
      | .error e => .error e
      | .ok p => Keepalive.deserializeLoop n b2 (acc ++ [p])

/-- Wire::deserialize for Keepalive from keepalive.rs: read exactly
Keepalive::PEERS peer records in order from a fresh Bytes cursor. -/
def Keepalive.deserialize (_ : Option Header) (data : List Nat) : Except String Keepalive :=
  match Keepalive.deserializeLoop Keepalive.PEERS (Bytes.new data) [] with
  | .error e => .error e
  | .ok (ps, _) => .ok ⟨ps⟩

/-- Wire::serialize for Keepalive from keepalive.rs: the body is an
unimplemented macro invocation, so every call panics. -/
def Keepalive.serialize (_ : Keepalive) : ROut (List Nat) :=
  .panic "not implemented"

/-- The expected byte chunking of a Keepalive payload: n records of
Peer.LEN bytes each, in input order. -/
def peerChunks : Nat → List Nat → List Peer
  | 0, _ => []
  | n + 1, d => ⟨d.take Peer.LEN⟩ :: peerChunks n (d.drop Peer.LEN)

def Extensions.isQuery (ext : Nat) : Bool := ext.testBit 0

def Extensions.isResponse (ext : Nat) : Bool := ext.testBit 1

/-- Modelled from the spec: Handshake payload length, an optional 32-byte
cookie when the query bit is set followed by an optional 32-byte public key
plus 64-byte signature when the response bit is set. -/
def Handshake.len (h : Header) : Nat :=
  (if Extensions.isQuery h.extensions then 32 else 0) +
  (if Extensions.isResponse h.extensions then 96 else 0)

/-- Modelled from the spec: FrontierReq has a fixed-length payload. -/
def FrontierReq.LEN : Nat := 40

/-- The decoded messages the embedding covers. -/
inductive Msg where
  | keepalive (k : Keepalive)
  | telemetryReq
  | frontierReq (raw : List Nat)
  | handshake (query : Option (List Nat)) (response : Option (List Nat × List Nat))
  deriving DecidableEq, Repr

/-- Modelled from the spec: Handshake decoding consults the header extension
bits, not the payload content, to decide which optional parts are present. -/
def Handshake.deserialize (h : Header) (data : List Nat) : Except String Msg :=
  let q := if Extensions.isQuery h.extensions then some (data.take 32) else none
  let rest := if Extensions.isQuery h.extensions then data.drop 32 else data
  let r := if Extensions.isResponse h.extensions then
    some (rest.take 32, (rest.drop 32).take 64) else none
  .ok (.handshake q r)

/-- Expected payload length by message type, the T::len(header) calls made by
the dispatch table in PcapDump::dump. Message types whose codec sources are
absent and whose layout the spec leaves open (Publish, ConfirmReq,
ConfirmAck, TelemetryAck) are left out of the model, as are the types the
dump loop itself does not handle. -/
def msgLen (h : Header) : Except String Nat :=
  match h.messageType with
  | .Keepalive => Keepalive.len (some h)
  | .TelemetryReq => .ok 0
  | .FrontierReq => .ok FrontierReq.LEN
  | .Handshake => .ok (Handshake.len h)
  | _ => .error "unhandled message type"

/-- Payload decoding by message type, the T::deserialize(header, data) calls
made by the dispatch table in PcapDump::dump. -/
def msgDeserialize (h : Header) (data : List Nat) : Except String Msg :=
  match h.messageType with
  | .Keepalive => (Keepalive.deserialize (some h) data).map .keepalive
  | .TelemetryReq => .ok .telemetryReq
  | .FrontierReq => .ok (.frontierReq data)
  | .Handshake => Handshake.deserialize h data
  | _ => .error "unhandled message type"

/-- The while-loop of PcapDump::dump over one prepended byte sequence,
viewed from the current cursor position (the list holds the bytes not yet
consumed). The fuel argument bounds the number of iterations; since every
iteration consumes at least Header.LEN bytes, bytes.length + 1 always
suffices, and the fuel-exhausted case is unreachable in `processLoop`.
Branches: an empty buffer ends the loop; fewer bytes than a header stores
the remainder as the pending leftover; a header decode error or an
unhandled message type drops the rest of the chunk (continue to the next
packet with the leftover already removed); a payload shorter than expected
rewinds past the header and stores the whole span as the leftover;
otherwise the message is emitted and the loop continues. -/
def processLoopAux : Nat → List Nat → List (Header × Msg) × Option (List Nat)
  | 0, b => ([], some b)
  | fuel + 1, bytes =>
    if bytes = [] then ([], none)
    else if bytes.length < Header.LEN then ([], some bytes)
    else
      match Header.deserialize (bytes.take Header.LEN) with
      | .error _ => ([], none)
      | .ok hd =>
        match msgLen hd with
        | .error _ => ([], none)
        | .ok len =>
          if (bytes.drop Header.LEN).length < len then ([], some bytes)
          else
            match msgDeserialize hd ((bytes.drop Header.LEN).take len) with
            | .error _ => ([], none)
            | .ok m =>
              let r := processLoopAux fuel ((bytes.drop Header.LEN).drop len)
              (⟨hd, m⟩ :: r.1, r.2)

def processLoop (bytes : List Nat) : List (Header × Msg) × Option (List Nat) :=
  processLoopAux (bytes.length + 1) bytes

/-- One inbound chunk for one stream in PcapDump::dump: empty data is
skipped, otherwise the pending leftover is removed from the continuation
store and prepended, and the while-loop runs. -/
def processChunk (leftover : Option (List Nat)) (chunk : List Nat) :
    List (Header × Msg) × Option (List Nat) :=
  if chunk = [] then ([], leftover)
  else processLoop (leftover.getD [] ++ chunk)

/-- Sequential deliveries to one stream: thread the pending leftover through
and concatenate the emitted (Header, Msg) pairs. -/
def processChunks (leftover : Option (List Nat)) :
    List (List Nat) → List (Header × Msg) × Option (List Nat)
  | [] => ([], leftover)
  | c :: cs =>
    let r := processChunk leftover c
    let r2 := processChunks r.2 cs
    (r.1 ++ r2.1, r2.2)

/-- A 32-byte block digest, from block_hash.rs (absent): try_from checks the
length. -/
structure BlockHash where
  bytes : List Nat
  deriving DecidableEq, Repr

def BlockHash.LEN : Nat := 32

def BlockHash.tryFrom (data : List Nat) : Except String BlockHash :=
  if data.length = BlockHash.LEN then .ok ⟨data⟩ else .error "bad hash length"

structure Raw where
  value : Nat
  deriving DecidableEq, Repr

structure Work where
  bytes : List Nat
  deriving DecidableEq, Repr

structure Signature where
  bytes : List Nat
  deriving DecidableEq, Repr

structure Public where
  bytes : List Nat
  deriving DecidableEq, Repr

structure Private where
  bytes : List Nat
  deriving DecidableEq, Repr

/-- hash_block from blocks/mod.rs: concatenate the spans in the given order
into one vector and apply the fixed-output-length hash. The blake2b
primitive lives in the encoding module (absent), so it is passed in as a
function argument. -/
def hash_block (blake : Nat → List Nat → List Nat) (parts : List (List Nat)) :
    Except String BlockHash :=
  BlockHash.tryFrom (blake BlockHash.LEN (parts.foldl (fun acc b => acc ++ b) []))

/-- The concatenation hash_block builds before hashing. -/
def hashPreimage (parts : List (List Nat)) : List Nat :=
  parts.foldl (fun acc b => acc ++ b) []

def strBytes (s : String) : List Nat := s.toList.map Char.toNat

def Raw.bytes (r : Raw) : List Nat := [r.value]

/-- Modelled from the spec: the five block variants with their field sets
(the per-variant source files are absent); fields referenced by
blocks/mod.rs (balance and previous of a send block) are kept faithful. -/
structure SendBlock where
  previous : BlockHash
  destination : String
  balance : Raw
  deriving DecidableEq, Repr

structure ReceiveBlock where
  previous : BlockHash
  source : List Nat
  deriving DecidableEq, Repr

structure OpenBlock where
  source : List Nat
  representative : String
  account : String
  deriving DecidableEq, Repr

structure ChangeBlock where
  previous : BlockHash
  representative : String
  deriving DecidableEq, Repr

structure StateBlock where
  account : String
  previous : BlockHash
  representative : String
  balance : Raw
  link : List Nat
  deriving DecidableEq, Repr

/-- Modelled from the spec: each variant hashes the ordered concatenation of
its own fields via hash_block. -/
def SendBlock.hash (blake : Nat → List Nat → List Nat) (b : SendBlock) :
    Except String BlockHash :=
  hash_block blake [b.previous.bytes, strBytes b.destination, b.balance.bytes]

def OpenBlock.hash (blake : Nat → List Nat → List Nat) (b : OpenBlock) :
    Except String BlockHash :=
  hash_block blake [b.source, strBytes b.representative, strBytes b.account]

def StateBlock.hash (blake : Nat → List Nat → List Nat) (b : StateBlock) :
    Except String BlockHash :=
  hash_block blake
    [strBytes b.account, b.previous.bytes, strBytes b.representative,
     b.balance.bytes, b.link]

/-- The tagged union of block variants from blocks/mod.rs. -/
inductive Block where
  | Send (b : SendBlock)
  | Receive (b : ReceiveBlock)
  | Open (b : OpenBlock)
  | Change (b : ChangeBlock)
  | State (b : StateBlock)
  deriving DecidableEq, Repr

def Block.isReceive : Block → Bool
  | .Receive _ => true
  | _ => false

def Block.isChange : Block → Bool
  | .Change _ => true
  | _ => false

def Block.isSend : Block → Bool
  | .Send _ => true
  | _ => false

def Block.isOpen : Block → Bool
  | .Open _ => true
  | _ => false

def Block.isState : Block → Bool
  | .State _ => true
  | _ => false

/-- FullBlock from blocks/mod.rs: a block plus optional work and signature. -/
structure FullBlock where
  block : Block
  work : Option Work
  signature : Option Signature
  deriving DecidableEq, Repr

def FullBlock.new (b : Block) : FullBlock := ⟨b, none, none⟩

def exceptToROut {α : Type} : Except String α → ROut α
  | .error e => .err e
  | .ok a => .ok a

/-- FullBlock::hash from blocks/mod.rs: dispatch on the variant; the Receive
and Change arms are commented out in the source, so those variants fall
into the catch-all todo macro, which panics. -/
def FullBlock.hash (blake : Nat → List Nat → List Nat) (fb : FullBlock) :
    ROut BlockHash :=
  match fb.block with
  | .Send x => exceptToROut (x.hash blake)
  | .Open x => exceptToROut (x.hash blake)
  | .State x => exceptToROut (x.hash blake)
  | _ => .panic "not yet implemented"

/-- FullBlock::set_signature from blocks/mod.rs (always returns Ok). -/
def FullBlock.set_signature (fb : FullBlock) (s : Signature) : FullBlock :=
  { fb with signature := some s }

/-- FullBlock::verify_signature from blocks/mod.rs: recompute the hash first,
then require a stored signature (anyhow error when missing), then check it
under the given public key. The ed25519 verify primitive is external and
passed in as a function argument. -/
def FullBlock.verify_signature (blake : Nat → List Nat → List Nat)
    (verifyFn : Public → List Nat → Signature → Bool)
    (fb : FullBlock) (account : Public) : ROut Bool :=
  match fb.hash blake with
  | .panic m => .panic m
  | .err m => .err m
  | .ok h =>
    match fb.signature with
    | none => .err "Signature missing"
    | some sg => .ok (verifyFn account h.bytes sg)

/-- FullBlock::sign from blocks/mod.rs: compute the hash, sign its bytes with
the private key (external primitive passed in), store the signature. -/
def FullBlock.sign (blake : Nat → List Nat → List Nat)
    (signFn : Private → List Nat → Except String Signature)
    (fb : FullBlock) (priv : Private) : ROut FullBlock :=
  match fb.hash blake with
  | .panic m => .panic m
  | .err m => .err m
  | .ok h =>
    match signFn priv h.bytes with
    | .error e => .err e
    | .ok sg => .ok (fb.set_signature sg)

/-- FullBlock::balance from blocks/mod.rs: only the Send arm is written; all
other variants fall into the catch-all todo macro, which panics. -/
def FullBlock.balance (fb : FullBlock) : ROut (Option Raw) :=
  match fb.block with
  | .Send b => .ok (some b.balance)
  | _ => .panic "not yet implemented"

/-- FullBlock::previous from blocks/mod.rs: the Open arm yields none and the
Send arm yields the previous hash; all other variants fall into the
catch-all todo macro, which panics. -/
def FullBlock.previous (fb : FullBlock) : ROut (Option BlockHash) :=
  match fb.block with
  | .Open _ => .ok none
  | .Send b => .ok (some b.previous)
  | _ => .panic "not yet implemented"

/-- Modelled from the spec: a 32-byte one-time handshake nonce; try_from
checks the length (the cookie.rs source file is absent). -/
structure Cookie where
  bytes : List Nat
  deriving DecidableEq, Repr

def Cookie.LEN : Nat := 32

def Cookie.as_bytes (c : Cookie) : List Nat := c.bytes

def Cookie.tryFrom (data : List Nat) : Except String Cookie :=
  if data.length = Cookie.LEN then .ok ⟨data⟩ else .error "bad cookie length"

/-- Modelled from the spec: an IPv4 socket address rendered to its textual
form, which is what sled_disk.rs uses as the key of the cookies tree. -/
structure SocketAddrV4 where
  a : Nat
  b : Nat
  c : Nat
  d : Nat
  port : Nat
  deriving DecidableEq, Repr

def SocketAddrV4.render (s : SocketAddrV4) : String :=
  toString s.a ++ "." ++ toString s.b ++ "." ++ toString s.c ++ "." ++
  toString s.d ++ ":" ++ toString s.port

/-- A sled tree modelled as an association list with unique keys: insert
replaces the value at an existing key. -/
def treeInsert (t : List (String × List Nat)) (k : String) (v : List Nat) :
    List (String × List Nat) :=
  match t with
  | [] => [(k, v)]
  | (k2, v2) :: rest =>
    if k2 = k then (k, v) :: rest else (k2, v2) :: treeInsert rest k v

def treeGet (t : List (String × List Nat)) (k : String) : Option (List Nat) :=
  match t with
  | [] => none
  | (k2, v2) :: rest => if k2 = k then some v2 else treeGet rest k

def treeRemove (t : List (String × List Nat)) (k : String) :
    List (String × List Nat) :=
  match t with
  | [] => []
  | (k2, v2) :: rest =>
    if k2 = k then rest else (k2, v2) :: treeRemove rest k

/-- SledDiskState from sled_disk.rs: the network plus the cookies and peers
trees (the sled engine is modelled as an association list). -/
structure SledDiskState where
  network : Network
  cookies : List (String × List Nat)
  peers : List (String × List Nat)
  deriving DecidableEq, Repr

def SledDiskState.init (n : Network) : SledDiskState := ⟨n, [], []⟩

/-- State::add_block for SledDiskState: the body is an unimplemented macro
invocation, so every call panics. -/
def SledDiskState.add_block (_ : SledDiskState) (_ : Public) (_ : FullBlock) :
    ROut Unit :=
  .panic "not implemented"

/-- State::get_block_by_hash for SledDiskState: unimplemented, panics. -/
def SledDiskState.get_block_by_hash (_ : SledDiskState) (_ : BlockHash) :
    ROut (Option FullBlock) :=
  .panic "not implemented"

/-- State::account_balance for SledDiskState: unimplemented, panics. -/
def SledDiskState.account_balance (_ : SledDiskState) (_ : Public) :
    ROut (Option Raw) :=
  .panic "not implemented"

/-- State::account_for_block_hash for SledDiskState: unimplemented, panics. -/
def SledDiskState.account_for_block_hash (_ : SledDiskState) (_ : BlockHash) :
    ROut (Option Public) :=
  .panic "not implemented"

/-- State::set_account_balance for SledDiskState: unimplemented, panics. -/
def SledDiskState.set_account_balance (_ : SledDiskState) (_ : Public) (_ : Raw) :
    ROut Unit :=
  .panic "not implemented"

/-- State::set_cookie from sled_disk.rs: insert the cookie bytes into the
cookies tree keyed by the textual form of the socket address. -/
def SledDiskState.set_cookie (st : SledDiskState) (addr : SocketAddrV4)
    (c : Cookie) : Except String SledDiskState :=
  .ok { st with cookies := treeInsert st.cookies addr.render c.as_bytes }

/-- State::cookie_for_socket_addr from sled_disk.rs: look up the textual form
of the address in the cookies tree and rebuild the cookie via try_from. -/
def SledDiskState.cookie_for_socket_addr (st : SledDiskState)
    (addr : SocketAddrV4) : Except String (Option Cookie) :=
  match treeGet st.cookies addr.render with
  | none => .ok none
  | some bs =>
    match Cookie.tryFrom bs with
    | .error e => .error e
    | .ok c => .ok (some c)

/-- Apply a sequence of set_cookie operations in order, starting from a
given store. -/
def applyCookieOps (st : SledDiskState) :
    List (SocketAddrV4 × Cookie) → Except String SledDiskState
  | [] => .ok st
  | (a, c) :: rest =>
    match st.set_cookie a c with
    | .error e => .error e
    | .ok st2 => applyCookieOps st2 rest

/-- A JSON block object as a record of its textual fields, in the shape of
the documented genesis constant: a type tag, three identity fields and the
optional work and signature hex strings. -/
structure BlockJson where
  type : String
  source : String
  representative : String
  account : String
  work : String
  signature : String
  deriving DecidableEq, Repr

def hexDigitVal (c : Char) : Option Nat :=
  if '0' ≤ c ∧ c ≤ '9' then some (c.toNat - 48)
  else if 'A' ≤ c ∧ c ≤ 'F' then some (c.toNat - 55)
  else if 'a' ≤ c ∧ c ≤ 'f' then some (c.toNat - 87)
  else none

def hexDecodeList : List Char → Option (List Nat)
  | [] => some []
  | [_] => none
  | c1 :: c2 :: rest =>
    match hexDigitVal c1, hexDigitVal c2, hexDecodeList rest with
    | some hi, some lo, some bs => some ((16 * hi + lo) :: bs)
    | _, _, _ => none

def hexDecode (s : String) : Option (List Nat) := hexDecodeList s.toList

def hexDigitChar (n : Nat) : Char :=
  if n < 10 then Char.ofNat (48 + n) else Char.ofNat (55 + n)

def hexEncode (bs : List Nat) : String :=
  String.mk (bs.foldr (fun b acc => hexDigitChar (b / 16) :: hexDigitChar (b % 16) :: acc) [])

def isAddress (s : String) : Bool :=
  s.toList.take 5 == "nano_".toList && s.toList.length == 65

/-- Modelled from the spec: parsing the tagged JSON object into a FullBlock
(the serde machinery is external). The type tag selects the variant; hex
fields are decoded to bytes with their documented lengths; the account and
representative addresses are validated and kept in address form. Only the
open shape, the one the genesis constant uses, is covered. -/
def parseFullBlockJson (j : BlockJson) : Except String FullBlock :=
  if j.type ≠ "open" then .error "unsupported block type" else
  match hexDecode j.source with
  | none => .error "bad source hex"
  | some src =>
    if src.length ≠ 32 then .error "bad source length" else
    if ¬ isAddress j.representative then .error "bad representative" else
    if ¬ isAddress j.account then .error "bad account" else
    match hexDecode j.work, hexDecode j.signature with
    | some w, some sg =>
      if w.length ≠ 8 then .error "bad work length" else
      if sg.length ≠ 64 then .error "bad signature length" else
      .ok ⟨.Open ⟨src, j.representative, j.account⟩, some ⟨w⟩, some ⟨sg⟩⟩
    | _, _ => .error "bad hex"

/-- Modelled from the spec: re-serializing a FullBlock to the JSON object,
rendering byte fields as uppercase hex and addresses verbatim. -/
def fullBlockToJson (fb : FullBlock) : Except String BlockJson :=
  match fb.block with
  | .Open ob =>
    .ok ⟨"open", hexEncode ob.source, ob.representative, ob.account,
      (match fb.work with | some w => hexEncode w.bytes | none => ""),
      (match fb.signature with | some s => hexEncode s.bytes | none => "")⟩
  | _ => .error "unsupported block type"

/-- The documented genesis JSON object from the blocks/mod.rs test. -/
def genesisJson : BlockJson :=
  ⟨"open",
   "E89208DD038FBB269987689621D52292AE9C35941A7484756ECCED92A65093BA",
   "nano_3t6k35gi95xu6tergt6p69ck76ogmitsa8mnijtpxm9fkcm736xtoncuohr3",
   "nano_3t6k35gi95xu6tergt6p69ck76ogmitsa8mnijtpxm9fkcm736xtoncuohr3",
   "62F05417DD3FB691",
   "9F0C933C8ADE004D808EA1985FA746A7E95BA2A38F867640F53EC8F180BDFE9E2C1268DEAD7C2664F356E37ABA362BC58E46DBA03E523A7B5A19E4B6EB12BB02"⟩

/-- What a chunk handed to PcapDump::dump produced, as visible from outside:
either a decoded framed message or the headerless frontier sub-mode branch
being taken for the connection. -/
inductive StepOut where
  | decoded (h : Header) (m : Msg)
  | headerless
  deriving DecidableEq, Repr

/-- The per-run state of PcapDump::dump: the stream continuation store keyed
by directional stream id and the set of frontier connections keyed by
connection id. -/
structure DumpState where
  stream_cont : List (String × List Nat)
  frontiers : List String
  deriving DecidableEq, Repr

def DumpState.init : DumpState := ⟨[], []⟩

def hasFrontierReq (msgs : List (Header × Msg)) : Bool :=
  msgs.any (fun p => p.1.messageType == MessageType.FrontierReq)

/-- One TCP payload through the body of the packet loop of PcapDump::dump:
empty data is skipped; the pending leftover for the stream is taken out and
prepended; a connection already in the frontiers set goes to the headerless
frontier branch; otherwise the framed while-loop runs, the new leftover (if
any) is stored, and the connection is added to the frontiers set when a
FrontierReq message was decoded. -/
def dumpStep (st : DumpState) (sid cid : String) (data : List Nat) :
    DumpState × List (String × StepOut) :=
  if data = [] then (st, [])
  else
    let leftover := treeGet st.stream_cont sid
    let sc := treeRemove st.stream_cont sid
    let bytes := leftover.getD [] ++ data
    if cid ∈ st.frontiers then
      (⟨sc, st.frontiers⟩, [(cid, .headerless)])
    else
      let r := processLoop bytes
      let sc2 := match r.2 with
        | none => sc
        | some lo => treeInsert sc sid lo
      let fr2 := if hasFrontierReq r.1 then cid :: st.frontiers else st.frontiers
      (⟨sc2, fr2⟩, r.1.map (fun p => (cid, .decoded p.1 p.2)))

/-- A packet relevant to the dump loop: its directional stream id, its
connection id and its TCP payload. -/
structure DumpEvent where
  sid : String
  cid : String
  data : List Nat
  deriving DecidableEq, Repr

def runDump (st : DumpState) : List DumpEvent → DumpState × List (String × StepOut)
  | [] => (st, [])
  | e :: es =>
    let r := dumpStep st e.sid e.cid e.data
    let r2 := runDump r.1 es
    (r2.1, r.2 ++ r2.2)

def frontierReqDecodedOn (cid : String) (o : String × StepOut) : Bool :=
  o.1 == cid &&
    match o.2 with
    | .decoded h _ => h.messageType == MessageType.FrontierReq
    | _ => false

/-- A deterministic stand-in for the external blake2b primitive, used only
to evaluate the embedding at concrete inputs; it respects the requested
output length. -/
def blakeStub (n : Nat) (_ : List Nat) : List Nat := List.replicate n 0

/-- A deterministic stand-in for the external ed25519 signing primitive. -/
def signStub (_ : Private) (_ : List Nat) : Except String Signature :=
  .ok ⟨List.replicate 64 0⟩

/-- A deterministic stand-in for the external ed25519 verify primitive. -/
def verifyStub (_ : Public) (_ : List Nat) (_ : Signature) : Bool := true

def exHeader : Header := ⟨.Live, 18, 18, 18, .Keepalive, 0⟩

def exPayload : List Nat := List.replicate 144 0

def exMsgBytes : List Nat := Header.serialize exHeader ++ exPayload

def exKeepalive : Keepalive := ⟨List.replicate 8 ⟨List.replicate 18 0⟩⟩

def exMsg : Msg := .keepalive exKeepalive

def exPriv : Private := ⟨List.replicate 32 1⟩

def exPub : Public := ⟨List.replicate 32 2⟩

def exHash32 : BlockHash := ⟨List.replicate 32 3⟩

def exReceiveFull : FullBlock := FullBlock.new (.Receive ⟨exHash32, List.replicate 32 4⟩)

def exChangeFull : FullBlock := FullBlock.new (.Change ⟨exHash32, "rep"⟩)

def exOpenFull : FullBlock := FullBlock.new (.Open ⟨List.replicate 32 5, "rep", "acct"⟩)

def exSendFull : FullBlock := FullBlock.new (.Send ⟨exHash32, "dest", ⟨7⟩⟩)

def exStateFull : FullBlock :=
  FullBlock.new (.State ⟨"acct", exHash32, "rep", ⟨9⟩, List.replicate 32 6⟩)

def genesisFullBlock : FullBlock :=
  ⟨.Open ⟨(hexDecode genesisJson.source).getD [], genesisJson.representative,
          genesisJson.account⟩,
   some ⟨(hexDecode genesisJson.work).getD []⟩,
   some ⟨(hexDecode genesisJson.signature).getD []⟩⟩

def exSled : SledDiskState := SledDiskState.init .Live

def exAddrA : SocketAddrV4 := ⟨10, 0, 0, 1, 7075⟩

def exAddrB : SocketAddrV4 := ⟨10, 0, 0, 2, 7075⟩

def exCookie : Cookie := ⟨List.replicate 32 9⟩

def exSled2 : SledDiskState := ⟨.Live, [(exAddrA.render, exCookie.bytes)], []⟩

def exEvent : DumpEvent := ⟨"s1", "c1", exMsgBytes⟩

theorem foldl_append_eq_join (parts : List (List Nat)) (acc : List Nat) :
    parts.foldl (fun a b => a ++ b) acc = acc ++ parts.flatten := by
  induction parts generalizing acc with
  | nil => simp
  | cons p ps ih => simp [List.foldl_cons, ih]

/-- Claim C3: hash_block concatenates the spans in the exact order given and
applies the fixed-output-length hash to that concatenation, so hashing the
parts equals hashing their one-piece concatenation, and the preimage is
order sensitive: swapping two unequal spans changes the hash input. -/
theorem C3_hash_block_concat (blake : Nat → List Nat → List Nat)
    (parts : List (List Nat)) :
    hash_block blake parts = hash_block blake [parts.flatten] ∧
    hash_block blake parts =
      BlockHash.tryFrom (blake BlockHash.LEN (hashPreimage parts)) ∧
    hashPreimage [[1], [2]] ≠ hashPreimage [[2], [1]] := by
  refine ⟨?_, rfl, by decide⟩
  simp [hash_block, foldl_append_eq_join]

set_option maxRecDepth 100000 in
/-- Claim C9: parsing the documented genesis JSON object into a FullBlock
and re-serializing it reproduces the type, source, representative, account,
work and signature fields with identical values. -/
theorem C9_genesis_json_roundtrip :
    parseFullBlockJson genesisJson = .ok genesisFullBlock ∧
    fullBlockToJson genesisFullBlock = .ok genesisJson := by
  constructor <;> decide

set_option maxRecDepth 100000 in
/-- Claim C2 (code bug): decoding a valid Keepalive byte fixture succeeds,
but re-encoding the decoded message panics because Wire::serialize for
Keepalive is an unimplemented stub, so encode(decode(bytes)) == bytes
cannot hold for the Keepalive message type. -/
theorem C2_keepalive_serialize_unimplemented :
    Keepalive.deserialize none exPayload = .ok exKeepalive ∧
    Keepalive.serialize exKeepalive = .panic "not implemented" ∧
    (Keepalive.serialize exKeepalive).isOk = false := by
  refine ⟨by decide, rfl, rfl⟩

/-- Claim C7 counterexample: FullBlock::balance on an Open block and
FullBlock::previous on a State block reach the unimplemented catch-all arm
and panic, although the claim says the Send, Open and State variants are
all handled by both projections. -/
theorem C7_counterexample :
    FullBlock.balance exOpenFull = .panic "not yet implemented" ∧
    (FullBlock.balance exOpenFull).isPanic = true ∧
    FullBlock.previous exStateFull = .panic "not yet implemented" ∧
    FullBlock.balance exStateFull = .panic "not yet implemented" :=
  ⟨rfl, rfl, rfl, rfl⟩

/-- Claim C7 (amended): balance is defined only for the Send variant and
previous only for the Send and Open variants; every other variant, State
included, reaches the unimplemented catch-all branch and panics. -/
theorem C7_amended_projections (fb : FullBlock) :
    (fb.block.isSend = true →
       fb.balance.isOk = true ∧ fb.previous.isOk = true) ∧
    (fb.block.isOpen = true →
       fb.previous = .ok none ∧ fb.balance.isPanic = true) ∧
    (fb.block.isState = true →
       fb.balance.isPanic = true ∧ fb.previous.isPanic = true) ∧
    ((fb.block.isReceive = true ∨ fb.block.isChange = true) →
       fb.balance.isPanic = true ∧ fb.previous.isPanic = true) := by
  obtain ⟨b, w, s⟩ := fb
  cases b <;>
    simp [FullBlock.balance, FullBlock.previous, Block.isSend, Block.isOpen,
      Block.isState, Block.isReceive, Block.isChange, ROut.isOk, ROut.isPanic]

/-- Claim C4 counterexample: FullBlock::sign on a Receive block panics in
the todo arm of hash instead of returning an error result, and the
unimplemented storage operation add_block panics as well. -/
theorem C4_counterexample :
    FullBlock.sign blakeStub signStub exReceiveFull exPriv =
      .panic "not yet implemented" ∧
    (FullBlock.sign blakeStub signStub exReceiveFull exPriv).isErr = false ∧
    SledDiskState.add_block exSled exPub exReceiveFull =
      .panic "not implemented" ∧
    (SledDiskState.add_block exSled exPub exReceiveFull).isErr = false :=
  ⟨rfl, rfl, rfl, rfl⟩

/-- Claim C4 (amended): for the unimplemented variants (Receive and Change)
FullBlock::sign fails loudly by panicking rather than silently succeeding,
and the unimplemented storage operations panic as well; for the supported
variants sign computes the block hash, signs it and stores the signature. -/
theorem C4_amended_sign (blake : Nat → List Nat → List Nat)
    (signFn : Private → List Nat → Except String Signature)
    (fb : FullBlock) (priv : Private)
    (hb : ∀ n v, (blake n v).length = n) :
    ((fb.block.isReceive = true ∨ fb.block.isChange = true) →
       fb.sign blake signFn priv = .panic "not yet implemented") ∧
    ((fb.block.isReceive = false ∧ fb.block.isChange = false) →
       ∃ h, fb.hash blake = .ok h) ∧
    (∀ h sg, fb.hash blake = .ok h → signFn priv h.bytes = .ok sg →
       fb.sign blake signFn priv = .ok { fb with signature := some sg }) ∧
    (∀ st : SledDiskState,
       SledDiskState.add_block st exPub fb = .panic "not implemented" ∧
       SledDiskState.get_block_by_hash st exHash32 = .panic "not implemented" ∧
       SledDiskState.account_balance st exPub = .panic "not implemented" ∧
       SledDiskState.account_for_block_hash st exHash32 = .panic "not implemented" ∧
       SledDiskState.set_account_balance st exPub ⟨0⟩ = .panic "not implemented") := by
  obtain ⟨b, w, s⟩ := fb
  refine ⟨?_, ?_, ?_, fun st => ⟨rfl, rfl, rfl, rfl, rfl⟩⟩
  · intro hrc
    cases b <;> simp_all [Block.isReceive, Block.isChange, FullBlock.sign,
      FullBlock.hash]
  · intro hrc
    cases b <;> simp_all [Block.isReceive, Block.isChange, FullBlock.hash,
      SendBlock.hash, OpenBlock.hash, StateBlock.hash, hash_block,
      BlockHash.tryFrom, hb, exceptToROut]
  · intro h sg hh hs
    cases b <;> simp_all [FullBlock.hash, FullBlock.sign,
      FullBlock.set_signature]

/-- Claim C5 counterexample: FullBlock::verify_signature recomputes the hash
before looking at the signature, so on a Receive block with no signature it
panics in the todo arm instead of failing with the missing-signature
error. -/
theorem C5_counterexample :
    exReceiveFull.signature = none ∧
    FullBlock.verify_signature blakeStub verifyStub exReceiveFull exPub =
      .panic "not yet implemented" ∧
    (FullBlock.verify_signature blakeStub verifyStub exReceiveFull exPub).isErr
      = false :=
  ⟨rfl, rfl, rfl⟩

/-- Claim C5 (amended): on every FullBlock whose variant has an implemented
hash (Send, Open or State), verify_signature recomputes the hash and checks
the stored signature under the given public key, fails with the
missing-signature error when no signature is set, and never panics; on the
Receive and Change variants it panics while recomputing the hash. -/
theorem C5_amended_verify (blake : Nat → List Nat → List Nat)
    (verifyFn : Public → List Nat → Signature → Bool)
    (fb : FullBlock) (acct : Public)
    (hb : ∀ n v, (blake n v).length = n) :
    ((fb.block.isReceive = true ∨ fb.block.isChange = true) →
       fb.verify_signature blake verifyFn acct = .panic "not yet implemented") ∧
    ((fb.block.isReceive = false ∧ fb.block.isChange = false) →
       (fb.signature = none →
          fb.verify_signature blake verifyFn acct = .err "Signature missing") ∧
       (∀ sg h, fb.signature = some sg → fb.hash blake = .ok h →
          fb.verify_signature blake verifyFn acct = .ok (verifyFn acct h.bytes sg)) ∧
       (fb.verify_signature blake verifyFn acct).isPanic = false) := by
  obtain ⟨b, w, s⟩ := fb
  refine ⟨?_, ?_⟩
  · intro hrc
    cases b <;> simp_all [Block.isReceive, Block.isChange, FullBlock.hash,
      FullBlock.verify_signature]
  · intro hsupp
    obtain ⟨hr, hc⟩ := hsupp
    cases b <;> simp_all [Block.isReceive, Block.isChange, FullBlock.hash,
      FullBlock.verify_signature, SendBlock.hash, OpenBlock.hash,
      StateBlock.hash, hash_block, BlockHash.tryFrom, hb, exceptToROut,
      ROut.isPanic] <;> cases s <;> simp_all [ROut.isPanic]

/-- Witness for C7: the amended projection behavior evaluated on a concrete
Open block. -/
theorem C7_witness :
    FullBlock.previous exOpenFull = .ok none ∧
    (FullBlock.balance exOpenFull).isPanic = true :=
  (C7_amended_projections exOpenFull).2.1 rfl

/-- Witness for C4: signing a concrete Send block with the stand-in
primitives stores the produced signature. -/
theorem C4_witness :
    FullBlock.sign blakeStub signStub exSendFull exPriv =
      .ok { exSendFull with signature := some ⟨List.replicate 64 0⟩ } :=
  (C4_amended_sign blakeStub signStub exSendFull exPriv
      (fun n v => by simp [blakeStub])).2.2.1
    ⟨List.replicate 32 0⟩ ⟨List.replicate 64 0⟩ (by decide) (by decide)

/-- Witness for C5: verifying a concrete unsigned Send block fails with the
missing-signature error, and verifying a concrete Change block panics while
recomputing the hash. -/
theorem C5_witness :
    FullBlock.verify_signature blakeStub verifyStub exSendFull exPub =
      .err "Signature missing" ∧
    FullBlock.verify_signature blakeStub verifyStub exChangeFull exPub =
      .panic "not yet implemented" :=
  ⟨((C5_amended_verify blakeStub verifyStub exSendFull exPub
      (fun n v => by simp [blakeStub])).2 ⟨rfl, rfl⟩).1 rfl,
   (C5_amended_verify blakeStub verifyStub exChangeFull exPub
      (fun n v => by simp [blakeStub])).1 (Or.inr rfl)⟩

theorem keepaliveLoop_ok (n : Nat) : ∀ (b : Bytes) (acc : List Peer),
    b.pos + n * Peer.LEN ≤ b.data.length →
    Keepalive.deserializeLoop n b acc =
      .ok (acc ++ peerChunks n (b.data.drop b.pos),
           ⟨b.data, b.pos + n * Peer.LEN⟩) := by
  induction n with
  | zero =>
    intro b acc _
    simp [Keepalive.deserializeLoop, peerChunks]
  | succ n ih =>
    intro b acc h
    have hle : b.pos + Peer.LEN ≤ b.data.length := by
      simp [Peer.LEN] at h ⊢
      omega
    have hsl : b.slice Peer.LEN =
        .ok ((b.data.drop b.pos).take Peer.LEN, ⟨b.data, b.pos + Peer.LEN⟩) := by
      simp [Bytes.slice, hle]
    have hlen : ((b.data.drop b.pos).take Peer.LEN).length = Peer.LEN := by
      simp only [List.length_take, List.length_drop]
      omega
    have hp : Peer.deserialize none ((b.data.drop b.pos).take Peer.LEN) =
        .ok ⟨(b.data.drop b.pos).take Peer.LEN⟩ := by
      simp [Peer.deserialize, hlen]
    have hdd : (b.data.drop b.pos).drop Peer.LEN = b.data.drop (b.pos + Peer.LEN) := by
      rw [List.drop_drop]
    have hrec := ih ⟨b.data, b.pos + Peer.LEN⟩
      (acc ++ [⟨(b.data.drop b.pos).take Peer.LEN⟩])
      (by simp [Peer.LEN] at h ⊢; omega)
    have harith : b.pos + Peer.LEN + n * Peer.LEN = b.pos + (n + 1) * Peer.LEN := by
      ring
    simp only [Keepalive.deserializeLoop, hsl, hp, hrec, peerChunks]
    rw [hdd] at *
    simp [harith]

theorem keepaliveLoop_short (n : Nat) : ∀ (b : Bytes) (acc : List Peer),
    b.pos ≤ b.data.length → b.data.length < b.pos + n * Peer.LEN →
    Keepalive.deserializeLoop n b acc = .error "IncompleteData" := by
  induction n with
  | zero =>
    intro b acc h1 h2
    simp [Peer.LEN] at h2
    omega
  | succ n ih =>
    intro b acc h1 h2
    by_cases hc : b.pos + Peer.LEN ≤ b.data.length
    · have hsl : b.slice Peer.LEN =
          .ok ((b.data.drop b.pos).take Peer.LEN, ⟨b.data, b.pos + Peer.LEN⟩) := by
        simp [Bytes.slice, hc]
      have hlen : ((b.data.drop b.pos).take Peer.LEN).length = Peer.LEN := by
        simp only [List.length_take, List.length_drop]
        omega
      have hp : Peer.deserialize none ((b.data.drop b.pos).take Peer.LEN) =
          .ok ⟨(b.data.drop b.pos).take Peer.LEN⟩ := by
        simp [Peer.deserialize, hlen]
      have hrec := ih ⟨b.data, b.pos + Peer.LEN⟩
        (acc ++ [⟨(b.data.drop b.pos).take Peer.LEN⟩])
        (by simpa using hc)
        (by simp [Peer.LEN] at h2 ⊢; omega)
      simp [Keepalive.deserializeLoop, hsl, hp, hrec]
    · have hsl : b.slice Peer.LEN = .error "IncompleteData" := by
        simp [Bytes.slice, hc]
      simp [Keepalive.deserializeLoop, hsl]

theorem peerChunks_length (n : Nat) : ∀ d : List Nat, (peerChunks n d).length = n := by
  induction n with
  | zero => intro d; simp [peerChunks]
  | succ n ih => intro d; simp [peerChunks, ih]

theorem peerChunks_get (n : Nat) : ∀ (d : List Nat) (i : Nat), i < n →
    (peerChunks n d)[i]? = some ⟨(d.drop (Peer.LEN * i)).take Peer.LEN⟩ := by
  induction n with
  | zero => intro d i h; omega
  | succ n ih =>
    intro d i h
    cases i with
    | zero => simp [peerChunks]
    | succ i =>
      have hr := ih (d.drop Peer.LEN) i (by omega)
      have harith2 : Peer.LEN + Peer.LEN * i = Peer.LEN * (i + 1) := by ring
      simp only [peerChunks, List.getElem?_cons_succ, hr, List.drop_drop, harith2]

/-- Claim C6: Keepalive expected length is 8 times the peer record length,
independent of the header; deserializing exactly that many bytes yields the
8 fixed-length peer records in input order; fewer bytes fails with the
incomplete-data error. -/
theorem C6_keepalive_decode (hdr : Option Header) (data short : List Nat)
    (hd : data.length = Peer.LEN * Keepalive.PEERS)
    (hs : short.length < Peer.LEN * Keepalive.PEERS) :
    Keepalive.len hdr = .ok (Peer.LEN * Keepalive.PEERS) ∧
    Keepalive.deserialize none data = .ok ⟨peerChunks Keepalive.PEERS data⟩ ∧
    (∀ k, Keepalive.deserialize none data = .ok k →
       k.peers.length = Keepalive.PEERS ∧
       ∀ i, i < Keepalive.PEERS →
         k.peers[i]? = some ⟨(data.drop (Peer.LEN * i)).take Peer.LEN⟩) ∧
    Keepalive.deserialize none short = .error "IncompleteData" := by
  have hok := keepaliveLoop_ok Keepalive.PEERS (Bytes.new data) []
    (by simp [Bytes.new, Peer.LEN, Keepalive.PEERS] at hd ⊢; omega)
  have hshort := keepaliveLoop_short Keepalive.PEERS (Bytes.new short) []
    (by simp [Bytes.new])
    (by simp [Bytes.new, Peer.LEN, Keepalive.PEERS] at hs ⊢; omega)
  simp only [Bytes.new, List.drop_zero, List.nil_append] at hok hshort
  have hdes : Keepalive.deserialize none data = .ok ⟨peerChunks Keepalive.PEERS data⟩ := by
    simp [Keepalive.deserialize, Bytes.new, hok]
  refine ⟨rfl, hdes, ?_, by simp [Keepalive.deserialize, Bytes.new, hshort]⟩
  intro k hk
  rw [hdes] at hk
  cases hk
  exact ⟨peerChunks_length _ _, fun i hi => peerChunks_get _ _ _ hi⟩

set_option maxRecDepth 100000 in
/-- Witness for C6: the Keepalive codec evaluated on a concrete 144-byte
payload and on a concrete short payload. -/
theorem C6_witness :
    Keepalive.deserialize none (List.range 144) =
      .ok ⟨peerChunks Keepalive.PEERS (List.range 144)⟩ ∧
    Keepalive.deserialize none [0, 1, 2] = .error "IncompleteData" :=
  ⟨(C6_keepalive_decode none (List.range 144) [0, 1, 2]
      (by decide) (by decide)).2.1,
   (C6_keepalive_decode none (List.range 144) [0, 1, 2]
      (by decide) (by decide)).2.2.2⟩

theorem treeGet_insert_self (t : List (String × List Nat)) (k : String) (v : List Nat) :
    treeGet (treeInsert t k v) k = some v := by
  induction t with
  | nil => simp [treeInsert, treeGet]
  | cons p rest ih =>
    obtain ⟨k2, v2⟩ := p
    by_cases h : k2 = k <;> simp [treeInsert, treeGet, h, ih]

theorem treeGet_insert_other (t : List (String × List Nat)) (k k2 : String)
    (v : List Nat) (h : k2 ≠ k) :
    treeGet (treeInsert t k v) k2 = treeGet t k2 := by
  induction t with
  | nil => simp [treeInsert, treeGet, Ne.symm h]
  | cons p rest ih =>
    obtain ⟨k3, v3⟩ := p
    by_cases h3 : k3 = k
    · subst h3
      simp [treeInsert, treeGet, Ne.symm h]
    · simp [treeInsert, treeGet, h3, ih]

theorem applyCookieOps_absent (ops : List (SocketAddrV4 × Cookie)) :
    ∀ (st st3 : SledDiskState) (k : String),
    treeGet st.cookies k = none →
    (∀ p ∈ ops, (p : SocketAddrV4 × Cookie).1.render ≠ k) →
    applyCookieOps st ops = .ok st3 →
    treeGet st3.cookies k = none := by
  induction ops with
  | nil =>
    intro st st3 k habs _ happ
    cases happ
    exact habs
  | cons p rest ih =>
    intro st st3 k habs hne happ
    obtain ⟨a, c⟩ := p
    simp only [applyCookieOps, SledDiskState.set_cookie] at happ
    refine ih _ st3 k ?_ (fun q hq => hne q (List.mem_cons_of_mem _ hq)) happ
    have : a.render ≠ k := hne (a, c) (List.mem_cons_self _ _)
    simpa [treeGet_insert_other _ _ _ _ (fun hc : k = a.render => this hc.symm)]
      using habs

/-- Claim C10: after set_cookie stores a cookie for an address, looking the
address up returns an equal cookie; an address whose textual key was never
stored returns none; and a store keyed by the textual form of the address
means an update for one address never disturbs the entry of an address with
a different textual form. -/
theorem C10_cookie_store (st : SledDiskState) (a b : SocketAddrV4) (c : Cookie)
    (hc : c.bytes.length = Cookie.LEN)
    (hab : a.render ≠ b.render) :
    (∀ st2, st.set_cookie a c = .ok st2 →
       st2.cookie_for_socket_addr a = .ok (some c) ∧
       st2.cookie_for_socket_addr b = st.cookie_for_socket_addr b) ∧
    (SledDiskState.init st.network).cookie_for_socket_addr a = .ok none ∧
    (∀ ops st3, (∀ p ∈ ops, (p : SocketAddrV4 × Cookie).1.render ≠ a.render) →
       applyCookieOps (SledDiskState.init st.network) ops = .ok st3 →
       st3.cookie_for_socket_addr a = .ok none) := by
  refine ⟨?_, by simp [SledDiskState.init, SledDiskState.cookie_for_socket_addr, treeGet], ?_⟩
  · intro st2 hset
    simp only [SledDiskState.set_cookie, Except.ok.injEq] at hset
    subst hset
    constructor
    · simp [SledDiskState.cookie_for_socket_addr, Cookie.as_bytes,
        treeGet_insert_self, Cookie.tryFrom, hc]
    · simp [SledDiskState.cookie_for_socket_addr, Cookie.as_bytes,
        treeGet_insert_other _ _ _ _ hab.symm]
  · intro ops st3 hne happ
    have := applyCookieOps_absent ops (SledDiskState.init st.network) st3 a.render
      (by simp [SledDiskState.init, treeGet]) hne happ
    simp [SledDiskState.cookie_for_socket_addr, this]

set_option maxRecDepth 10000 in
/-- Witness for C10: storing a concrete cookie for one concrete address and
reading both that address and a different one. -/
theorem C10_witness :
    exSled2.cookie_for_socket_addr exAddrA = .ok (some exCookie) ∧
    exSled2.cookie_for_socket_addr exAddrB = exSled.cookie_for_socket_addr exAddrB :=
  (C10_cookie_store exSled exAddrA exAddrB exCookie (by decide) (by decide)).1
    exSled2 (by decide)

theorem dumpStep_headerless_mem (st : DumpState) (sid cid2 : String)
    (data : List Nat) (cid : String)
    (h : (cid, StepOut.headerless) ∈ (dumpStep st sid cid2 data).2) :
    cid ∈ st.frontiers := by
  by_cases hd : data = []
  · simp [dumpStep, hd] at h
  · by_cases hf : cid2 ∈ st.frontiers
    · simp [dumpStep, hd, hf] at h
      exact h ▸ hf
    · simp [dumpStep, hd, hf] at h

theorem dumpStep_frontiers_mem (st : DumpState) (sid cid2 : String)
    (data : List Nat) (cid : String)
    (hmem : cid ∈ (dumpStep st sid cid2 data).1.frontiers) :
    cid ∈ st.frontiers ∨
      ∃ o ∈ (dumpStep st sid cid2 data).2, frontierReqDecodedOn cid o = true := by
  by_cases hd : data = []
  · left
    simpa [dumpStep, hd] using hmem
  · by_cases hf : cid2 ∈ st.frontiers
    · left
      simpa [dumpStep, hd, hf] using hmem
    · simp only [dumpStep, if_neg hd, if_neg hf] at hmem ⊢
      by_cases hfr :
          hasFrontierReq (processLoop ((treeGet st.stream_cont sid).getD [] ++ data)).1 = true
      · simp only [hfr, if_pos] at hmem
        rcases List.mem_cons.mp hmem with hEq | hmem2
        · subst hEq
          right
          obtain ⟨p, hp, hty⟩ := List.any_eq_true.mp hfr
          exact ⟨(cid, .decoded p.1 p.2), List.mem_map.mpr ⟨p, hp, rfl⟩,
            by simp [frontierReqDecodedOn, hty]⟩
        · left
          exact hmem2
      · simp only [hfr, if_neg, ite_false] at hmem
        left
        exact hmem

theorem runDump_no_frontier (events : List DumpEvent) :
    ∀ (st : DumpState) (cid : String),
    cid ∉ st.frontiers →
    (∀ o ∈ (runDump st events).2, frontierReqDecodedOn cid o = false) →
    (∀ o ∈ (runDump st events).2, o ≠ (cid, StepOut.headerless)) ∧
    cid ∉ (runDump st events).1.frontiers := by
  induction events with
  | nil =>
    intro st cid hcid _
    exact ⟨by simp [runDump], by simpa [runDump] using hcid⟩
  | cons e es ih =>
    intro st cid hcid hno
    have hsplit : ∀ o, o ∈ (runDump st (e :: es)).2 ↔
        o ∈ (dumpStep st e.sid e.cid e.data).2 ∨
        o ∈ (runDump (dumpStep st e.sid e.cid e.data).1 es).2 := by
      intro o
      simp [runDump]
    have hnostep : ∀ o ∈ (dumpStep st e.sid e.cid e.data).2,
        frontierReqDecodedOn cid o = false :=
      fun o ho => hno o ((hsplit o).mpr (Or.inl ho))
    have hst1 : cid ∉ (dumpStep st e.sid e.cid e.data).1.frontiers := by
      intro hmem
      rcases dumpStep_frontiers_mem st e.sid e.cid e.data cid hmem with h1 | ⟨o, ho, htrue⟩
      · exact hcid h1
      · rw [hnostep o ho] at htrue
        cases htrue
    have hrest := ih (dumpStep st e.sid e.cid e.data).1 cid hst1
      (fun o ho => hno o ((hsplit o).mpr (Or.inr ho)))
    constructor
    · intro o ho
      rcases (hsplit o).mp ho with h1 | h1
      · intro hEq
        subst hEq
        exact hcid (dumpStep_headerless_mem st e.sid e.cid e.data cid h1)
      · exact hrest.1 o h1
    · have : (runDump st (e :: es)).1 = (runDump (dumpStep st e.sid e.cid e.data).1 es).1 := by
        simp [runDump]
      rw [this]
      exact hrest.2

/-- Claim C8: the headerless frontier-exchange sub-mode is tracked per
connection in the frontiers set and is entered only after a FrontierReq
message has been decoded on that connection: on a run in which no
FrontierReq is ever decoded for a connection, that connection is never
parsed in the headerless sub-mode and never joins the frontiers set. -/
theorem C8_frontier_mode_only_after_frontier_req (events : List DumpEvent)
    (cid : String)
    (hno : ∀ o ∈ (runDump DumpState.init events).2,
       frontierReqDecodedOn cid o = false) :
    (∀ o ∈ (runDump DumpState.init events).2, o ≠ (cid, StepOut.headerless)) ∧
    cid ∉ (runDump DumpState.init events).1.frontiers :=
  runDump_no_frontier events DumpState.init cid (by simp [DumpState.init]) hno

set_option maxRecDepth 100000 in
/-- Witness for C8: a run with a single keepalive packet on one connection
never enters the headerless sub-mode for that connection. -/
theorem C8_witness : "c1" ∉ (runDump DumpState.init [exEvent]).1.frontiers :=
  (C8_frontier_mode_only_after_frontier_req [exEvent] "c1" (by decide)).2

theorem serialize_length (h : Header) : (Header.serialize h).length = Header.LEN := rfl

theorem processLoopAux_nil (f : Nat) (hf : 0 < f) : processLoopAux f [] = ([], none) := by
  cases f with
  | zero => omega
  | succ f => simp [processLoopAux]

theorem processLoopAux_single (fuel : Nat) (h : Header) (p : List Nat) (m : Msg)
    (hdec : Header.deserialize (Header.serialize h) = .ok h)
    (hlen : msgLen h = .ok p.length)
    (hdes : msgDeserialize h p = .ok m)
    (hfuel : (Header.serialize h ++ p).length < fuel) :
    processLoopAux fuel (Header.serialize h ++ p) = ([(h, m)], none) := by
  have hsh : (Header.serialize h).length = Header.LEN := rfl
  have hL : Header.LEN = 8 := rfl
  have hlentot : (Header.serialize h ++ p).length = 8 + p.length := by
    simp [List.length_append, hsh, hL]
  obtain ⟨f, rfl⟩ : ∃ f, fuel = f + 1 := ⟨fuel - 1, by omega⟩
  have hne : Header.serialize h ++ p ≠ [] := by
    intro hc
    have := congrArg List.length hc
    rw [hlentot] at this
    simp at this
  have hnlt : ¬ ((Header.serialize h ++ p).length < Header.LEN) := by
    rw [hlentot, hL]
    omega
  have htk : (Header.serialize h ++ p).take Header.LEN = Header.serialize h := by
    rw [← hsh]
    exact List.take_left _ _
  have hdr : (Header.serialize h ++ p).drop Header.LEN = p := by
    rw [← hsh]
    exact List.drop_left _ _
  have hplt : ¬ (p.length < p.length) := lt_irrefl _
  have hnil : processLoopAux f [] = ([], none) := processLoopAux_nil f (by omega)
  simp only [processLoopAux, if_neg hne, if_neg hnlt, htk, hdr, hdec, hlen,
    hplt, if_neg, ite_false, List.take_length, hdes, List.drop_length, hnil]

theorem processLoopAux_short (fuel : Nat) (bytes : List Nat)
    (hne : bytes ≠ []) (hlt : bytes.length < Header.LEN) (hf : 0 < fuel) :
    processLoopAux fuel bytes = ([], some bytes) := by
  obtain ⟨f, rfl⟩ : ∃ f, fuel = f + 1 := ⟨fuel - 1, by omega⟩
  simp only [processLoopAux, if_neg hne, if_pos hlt]

theorem processLoopAux_rewind (fuel : Nat) (bytes : List Nat) (hd : Header)
    (len : Nat)
    (hne : bytes ≠ []) (hge : ¬ (bytes.length < Header.LEN))
    (hdec : Header.deserialize (bytes.take Header.LEN) = .ok hd)
    (hlen : msgLen hd = .ok len)
    (hshort : (bytes.drop Header.LEN).length < len) (hf : 0 < fuel) :
    processLoopAux fuel bytes = ([], some bytes) := by
  obtain ⟨f, rfl⟩ : ∃ f, fuel = f + 1 := ⟨fuel - 1, by omega⟩
  simp only [processLoopAux, if_neg hne, if_neg hge, hdec, hlen, if_pos hshort]

theorem processLoop_single (h : Header) (p : List Nat) (m : Msg)
    (hdec : Header.deserialize (Header.serialize h) = .ok h)
    (hlen : msgLen h = .ok p.length)
    (hdes : msgDeserialize h p = .ok m) :
    processLoop (Header.serialize h ++ p) = ([(h, m)], none) :=
  processLoopAux_single _ h p m hdec hlen hdes (Nat.lt_succ_self _)

/-- Claim C1: delivering a framed message's bytes to the reassembler split
at any byte offset across two sequential chunks decodes the identical
(Header, Message) pair as delivering all the bytes in one chunk, and when
the bytes after a decoded header are fewer than the expected payload
length, the whole span from the header start is stored as the pending
leftover. -/
theorem C1_reassembler_fragmentation_invariance (h : Header) (p : List Nat)
    (m : Msg)
    (hdec : Header.deserialize (Header.serialize h) = .ok h)
    (hlen : msgLen h = .ok p.length)
    (hdes : msgDeserialize h p = .ok m) :
    (∀ i ≤ (Header.serialize h ++ p).length,
       processChunks none
         [(Header.serialize h ++ p).take i, (Header.serialize h ++ p).drop i] =
         ([(h, m)], none)) ∧
    processChunks none [Header.serialize h ++ p] = ([(h, m)], none) ∧
    (∀ bytes hd len, bytes ≠ [] → ¬ (bytes : List Nat).length < Header.LEN →
       Header.deserialize (bytes.take Header.LEN) = .ok hd →
       msgLen hd = .ok len → (bytes.drop Header.LEN).length < len →
       processLoop bytes = ([], some bytes)) := by
  have hone : processLoop (Header.serialize h ++ p) = ([(h, m)], none) :=
    processLoop_single h p m hdec hlen hdes
  have hsh : (Header.serialize h).length = Header.LEN := rfl
  have hL : Header.LEN = 8 := rfl
  have hms : (Header.serialize h ++ p).length = 8 + p.length := by
    simp [List.length_append, hsh, hL]
  have hne_ms : Header.serialize h ++ p ≠ [] := by
    intro hc
    have := congrArg List.length hc
    rw [hms] at this
    simp at this
  refine ⟨?_, ?_, ?_⟩
  · intro i hi
    rcases Nat.lt_or_ge i Header.LEN with hi8 | hi8
    · rcases Nat.eq_zero_or_pos i with rfl | hipos
      · simp [processChunks, processChunk, hne_ms, hone]
      · have hlen_tk : ((Header.serialize h ++ p).take i).length = i := by
          simp only [List.length_take]
          omega
        have htake_ne : (Header.serialize h ++ p).take i ≠ [] := by
          intro hc
          have := congrArg List.length hc
          rw [hlen_tk] at this
          simp at this
          omega
        have hlt : ((Header.serialize h ++ p).take i).length < Header.LEN := by
          rw [hlen_tk]
          exact hi8
        have h1 : processLoop ((Header.serialize h ++ p).take i) =
            ([], some ((Header.serialize h ++ p).take i)) :=
          processLoopAux_short _ _ htake_ne hlt (Nat.succ_pos _)
        have hdrop_ne : (Header.serialize h ++ p).drop i ≠ [] := by
          intro hc
          have := congrArg List.length hc
          simp only [List.length_drop, List.length_nil] at this
          omega
        have hjoin : (Header.serialize h ++ p).take i ++
            (Header.serialize h ++ p).drop i = Header.serialize h ++ p :=
          List.take_append_drop i _
        simp [processChunks, processChunk, htake_ne, hdrop_ne, h1, hjoin, hone]
    · rcases Nat.lt_or_ge i (Header.serialize h ++ p).length with hilt | hige
      · have hlen_tk : ((Header.serialize h ++ p).take i).length = i := by
          simp only [List.length_take]
          omega
        have htake_ne : (Header.serialize h ++ p).take i ≠ [] := by
          intro hc
          have := congrArg List.length hc
          rw [hlen_tk] at this
          simp at this
          omega
        have hntl : ¬ (((Header.serialize h ++ p).take i).length < Header.LEN) := by
          rw [hlen_tk]
          omega
        have htt : ((Header.serialize h ++ p).take i).take Header.LEN =
            Header.serialize h := by
          rw [List.take_take]
          have hmin : min Header.LEN i = Header.LEN := by omega
          rw [hmin, ← hsh, List.take_left]
        have hdec2 : Header.deserialize
            (((Header.serialize h ++ p).take i).take Header.LEN) = .ok h := by
          rw [htt]
          exact hdec
        have hplen : (((Header.serialize h ++ p).take i).drop Header.LEN).length
            < p.length := by
          simp only [List.length_drop, hlen_tk]
          omega
        have h1 : processLoop ((Header.serialize h ++ p).take i) =
            ([], some ((Header.serialize h ++ p).take i)) :=
          processLoopAux_rewind _ _ h p.length htake_ne hntl hdec2 hlen hplen
            (Nat.succ_pos _)
        have hdrop_ne : (Header.serialize h ++ p).drop i ≠ [] := by
          intro hc
          have := congrArg List.length hc
          simp only [List.length_drop, List.length_nil] at this
          omega
        have hjoin : (Header.serialize h ++ p).take i ++
            (Header.serialize h ++ p).drop i = Header.serialize h ++ p :=
          List.take_append_drop i _
        simp [processChunks, processChunk, htake_ne, hdrop_ne, h1, hjoin, hone]
      · have hieq : i = (Header.serialize h ++ p).length := le_antisymm hi hige
        subst hieq
        have htk : (Header.serialize h ++ p).take (Header.serialize h ++ p).length =
            Header.serialize h ++ p := List.take_length _
        have hdp : (Header.serialize h ++ p).drop (Header.serialize h ++ p).length =
            ([] : List Nat) := List.drop_length _
        rw [htk, hdp]
        simp [processChunks, processChunk, hne_ms, hone]
  · simp [processChunks, processChunk, hne_ms, hone]
  · intro bytes hd0 len hbne hbge hdec0 hlen0 hshort
    exact processLoopAux_rewind _ _ hd0 len hbne hbge hdec0 hlen0 hshort
      (Nat.succ_pos _)

set_option maxRecDepth 100000 in
/-- Witness for C1: a concrete framed Keepalive message split after ten
bytes decodes identically to the unsplit delivery. -/
theorem C1_witness :
    processChunks none [exMsgBytes.take 10, exMsgBytes.drop 10] =
      ([(exHeader, exMsg)], none) :=
  (C1_reassembler_fragmentation_invariance exHeader exPayload exMsg
      (by decide) (by decide) (by decide)).1 10 (by decide)

end Feeless
